import Mathlib

/-!
Shallow embedding of the job-search pipeline of `src/app.py`:

* `create_country_job_queries` — the query builder;
* the per-result filtering loop of `enhanced_google_scraper` — link scheme
  check, job-indicator check, title-length bounds, spam deny-list, source
  assignment, snippet truncation;
* the deduplication dict and the relevance scoring/sorting of
  `run_enhanced_job_scraper`.

Modelling conventions: Python strings are Lean `String`; `a in b` is infix
of the character lists (`pyIn`); `s.lower()` maps `Char.toLower` over the
characters (`pyLower`); `s.strip()` drops whitespace at both ends
(`pyStrip`); `s[:n]` takes the first `n` characters (`pyTake`);
`s.split()` splits on runs of whitespace (`pySplitWs`).  The MD5 digest
used for the dedup key is modelled by the hashed string itself: the code
relies on distinct key strings having distinct digests.  The Python dict
`unique_jobs` is an insertion-ordered association of keys to jobs; value
replacement keeps the key's position, which `upsert` mirrors.  The
diagnostic `scraped_at` and `query` fields of a scraped record are omitted:
nothing in the filter, dedup or ranking reads them.
-/

namespace JobSearch

/-- Python `a in b`: `a` occurs as a contiguous substring of `b`. -/
def pyIn (a b : String) : Prop := a.data <:+: b.data

instance (a b : String) : Decidable (pyIn a b) :=
  inferInstanceAs (Decidable (a.data <:+: b.data))

/-- Python `s.lower()` (character-wise ASCII lowercasing). -/
def pyLower (s : String) : String := ⟨s.data.map Char.toLower⟩

/-- Python slicing `s[:n]`. -/
def pyTake (s : String) (n : Nat) : String := ⟨s.data.take n⟩

/-- Python `s.strip()`: drop whitespace from both ends. -/
def pyStrip (s : String) : String :=
  ⟨((s.data.dropWhile Char.isWhitespace).reverse.dropWhile Char.isWhitespace).reverse⟩

/-- Python `s.startswith(p)`. -/
def pyStarts (p s : String) : Prop := p.data <+: s.data

instance (p s : String) : Decidable (pyStarts p s) :=
  inferInstanceAs (Decidable (p.data <+: s.data))

/-- Helper for `pySplitWs`: accumulate the current word (reversed) while
scanning the character list. -/
def splitWsAux : List Char → List Char → List String
  | [], acc => if acc.isEmpty then [] else [⟨acc.reverse⟩]
  | c :: cs, acc =>
    if c.isWhitespace then
      if acc.isEmpty then splitWsAux cs [] else ⟨acc.reverse⟩ :: splitWsAux cs []
    else splitWsAux cs (c :: acc)

/-- Python `s.split()`: the maximal runs of non-whitespace characters. -/
def pySplitWs (s : String) : List String := splitWsAux s.data []

/-- One job record as built by `enhanced_google_scraper`. -/
structure Job where
  title : String
  link : String
  snippet : String
  source : String
deriving DecidableEq

/-- The `job_indicators` list of `enhanced_google_scraper`. -/
def job_indicators : List String :=
  ["job", "career", "position", "hiring", "vacancy", "employment", "work",
   "opportunity", "apply", "recruit"]

/-- `is_job_related` of `enhanced_google_scraper`: an indicator occurs in
the lowered title or link, or one of the first five indicators occurs in
the lowered snippet. -/
def is_job_related (title link snippet : String) : Bool :=
  job_indicators.any (fun i => decide (pyIn i (pyLower title))) ||
  job_indicators.any (fun i => decide (pyIn i (pyLower link))) ||
  (job_indicators.take 5).any (fun i => decide (pyIn i (pyLower snippet)))

/-- The spam deny-list of the quality filter. -/
def spam_list : List String := ["free", "easy money", "work from home scam"]

/-- `any(spam in title_lower for spam in ...)`. -/
def has_spam (title : String) : Bool :=
  spam_list.any (fun s => decide (pyIn s (pyLower title)))

/-- The `domain_indicators` mapping, in the code's insertion order. -/
def domain_indicators : List (String × String) :=
  [("linkedin", "LinkedIn"), ("indeed", "Indeed"), ("glassdoor", "Glassdoor"),
   ("monster", "Monster"), ("greenhouse", "Greenhouse"), ("lever", "Lever"),
   ("workday", "Workday"), ("bamboohr", "BambooHR"),
   ("careers", "Company Career Page")]

/-- Source assignment: the first domain indicator occurring in the lowered
link wins; otherwise "Unknown". -/
def assignSource (link : String) : String :=
  match domain_indicators.find? (fun p => decide (pyIn p.1 (pyLower link))) with
  | some p => p.2
  | none => "Unknown"

/-- `snippet[:400] + "..." if len(snippet) > 400 else snippet`. -/
def truncSnippet (s : String) : String :=
  if s.length > 400 then pyTake s 400 ++ "..." else s

/-- One raw search result: title text, href and snippet text as extracted
from the result HTML (snippet already defaulted when absent). -/
structure RawResult where
  title : String
  link : String
  snippet : String
deriving DecidableEq

/-- The per-result body of `enhanced_google_scraper`'s loop: skip results
whose link does not start with `http`; keep a result when it is
job-related, its title length is strictly between 10 and 150, and the
title has no spam phrase; on keep, truncate the snippet and assign the
source. -/
def processResult (r : RawResult) : Option Job :=
  if pyStarts "http" r.link ∧ is_job_related r.title r.link r.snippet = true ∧
      10 < r.title.length ∧ r.title.length < 150 ∧ has_spam r.title = false then
    some { title := r.title, link := r.link,
           snippet := truncSnippet r.snippet, source := assignSource r.link }
  else none

/-- The filtering stage over a list of raw results. -/
def resultFilter (rs : List RawResult) : List Job := rs.filterMap processResult

/-- `enhanced_google_scraper` with the network and HTML parsing abstracted
as an `Except` outcome: a transport error (network failure, timeout,
non-2xx status via `raise_for_status`) or unparseable response is the
`error` case, which the function's exception handlers turn into `[]`; on
success the code processes at most the first 10 extracted results. -/
def enhanced_google_scraper (outcome : Except String (List RawResult)) : List Job :=
  match outcome with
  | .error _ => []
  | .ok results => resultFilter (results.take 10)

/-- The `company_identifier` computed in the dedup loop of
`run_enhanced_job_scraper` (`title_clean` is `pyStrip (pyLower j.title)`
and `link_clean` is `pyLower j.link`): the segment after the last
`" at "` of the cleaned title; else the token between `"careers."` and
the next `"."` of the lowered link; else the lowered source when it is
not `"Unknown"`; else the empty string. -/
def companyIdentifier (j : Job) : String :=
  if pyIn " at " (pyStrip (pyLower j.title)) then
    ((pyStrip (pyLower j.title)).splitOn " at ").getLastD ""
  else if pyIn "careers." (pyLower j.link) then
    ((((pyLower j.link).splitOn "careers.").getD 1 "").splitOn ".").headD ""
  else if j.source ≠ "Unknown" then pyLower j.source
  else ""

/-- The string fed to `hashlib.md5` to form the dedup key:
`title_clean[:50] + company_identifier + job['source']`. -/
def jobKey (j : Job) : String :=
  pyTake (pyStrip (pyLower j.title)) 50 ++ companyIdentifier j ++ j.source

/-- The `preferred_sources` list of the merge rule. -/
def preferred_sources : List String :=
  ["greenhouse", "lever", "linkedin", "company career page", "indeed"]

/-- `any(source in s.lower() for source in preferred_sources)`. -/
def isPreferred (s : String) : Bool :=
  preferred_sources.any (fun p => decide (pyIn p (pyLower s)))

/-- One dict update of the dedup loop: a fresh key is appended at the end;
an existing key keeps its position, its value replaced exactly when the
new job's source is preferred and the stored one's is not. -/
def upsert : List Job → Job → List Job
  | [], j => [j]
  | x :: xs, j =>
    if jobKey x = jobKey j then
      (if isPreferred j.source = true ∧ isPreferred x.source = false then j else x) :: xs
    else x :: upsert xs j

/-- The deduplication stage: fold the accepted jobs through the dict and
read the values back in insertion order (`list(unique_jobs.values())`). -/
def deduplicate (l : List Job) : List Job := l.foldl upsert []

/-- The `INDUSTRIES` keyword table (keys and `keywords` entries). -/
def industry_keywords : String → List String
  | "Technology" => ["tech", "software", "developer", "engineer", "programming", "coding"]
  | "Finance & Banking" => ["finance", "banking", "investment", "financial", "accounting", "analyst"]
  | "Healthcare & Medical" => ["healthcare", "medical", "clinical", "pharmaceutical", "biotech", "health"]
  | "Marketing & Sales" => ["marketing", "sales", "business development", "brand", "digital marketing"]
  | "Education" => ["education", "teaching", "training", "curriculum", "academic", "instructor"]
  | "Consulting" => ["consulting", "consultant", "strategy", "management", "advisory"]
  | "Manufacturing" => ["manufacturing", "production", "industrial", "operations", "supply chain"]
  | "Media & Entertainment" => ["media", "entertainment", "content", "creative", "production", "broadcasting"]
  | "Retail & E-commerce" => ["retail", "ecommerce", "merchandising", "customer service", "store"]
  | "Non-Profit & Government" => ["nonprofit", "government", "public service", "policy", "social", "community"]
  | _ => []

/-- The keys of `INDUSTRIES`. -/
def industry_names : List String :=
  ["Technology", "Finance & Banking", "Healthcare & Medical", "Marketing & Sales",
   "Education", "Consulting", "Manufacturing", "Media & Entertainment",
   "Retail & E-commerce", "Non-Profit & Government"]

/-- The Python guard `industry and industry in INDUSTRIES` (a `None` or
empty industry is falsy). -/
def industryOk : Option String → Bool
  | none => false
  | some i => !i.isEmpty && industry_names.contains i

/-- `score += 25` when the lowered role title occurs in the lowered job
title. -/
def exactBonus (job_title_lower title_lower : String) : Int :=
  if pyIn job_title_lower title_lower then 25 else 0

/-- Per-word bonus: for each role-title word longer than 2 characters,
+8 when it occurs in the title, else +3 when it occurs in the snippet. -/
def wordBonus (job_title_lower title_lower snippet_lower : String) : Int :=
  ((pySplitWs job_title_lower).map (fun word =>
    if word.length > 2 then
      if pyIn word title_lower then (8 : Int)
      else if pyIn word snippet_lower then 3 else 0
    else 0)).sum

/-- `score += 5` when the lowered country occurs in the title or the
snippet. -/
def countryBonus (country_lower title_lower snippet_lower : String) : Int :=
  if pyIn country_lower title_lower ∨ pyIn country_lower snippet_lower then 5 else 0

/-- `score += 4` per industry keyword occurring in the title or the
snippet, when an industry from the table is selected. -/
def industryBonus (industry : Option String) (title_lower snippet_lower : String) : Int :=
  if industryOk industry = true then
    ((industry_keywords (industry.getD "")).map (fun kw =>
      if pyIn kw title_lower ∨ pyIn kw snippet_lower then (4 : Int) else 0)).sum
  else 0

/-- The source-quality bonus ladder of `calculate_relevance_score`. -/
def sourceBonus (source_lower : String) : Int :=
  if pyIn "linkedin" source_lower then 8
  else if pyIn "greenhouse" source_lower ∨ pyIn "lever" source_lower ∨
      pyIn "company career" source_lower then 6
  else if pyIn "indeed" source_lower then 4
  else 0

/-- `score -= 8` for titles longer than 120 characters. -/
def lengthPenalty (title : String) : Int :=
  if title.length > 120 then -8 else 0

/-- `calculate_relevance_score` of `run_enhanced_job_scraper`: the sum of
the bonus blocks, floored at 0 by the final `max(0, score)`. -/
def calculate_relevance_score (job_title country : String) (industry : Option String)
    (job : Job) : Int :=
  max 0 (exactBonus (pyLower job_title) (pyLower job.title)
       + wordBonus (pyLower job_title) (pyLower job.title) (pyLower job.snippet)
       + countryBonus (pyLower country) (pyLower job.title) (pyLower job.snippet)
       + industryBonus industry (pyLower job.title) (pyLower job.snippet)
       + sourceBonus (pyLower job.source)
       + lengthPenalty job.title)

/-- The comparison used to model `final_jobs.sort(key=..., reverse=True)`:
`a` may come before `b` when `a`'s score is at least `b`'s. -/
def scoreGE (job_title country : String) (industry : Option String) (a b : Job) : Bool :=
  decide (calculate_relevance_score job_title country industry b ≤
    calculate_relevance_score job_title country industry a)

/-- The ranking stage: Python's `list.sort` is a stable sort, and
`reverse=True` sorts descending while still keeping ties in their original
order, i.e. a stable sort under `scoreGE`. -/
def rankJobs (job_title country : String) (industry : Option String)
    (l : List Job) : List Job :=
  l.mergeSort (scoreGE job_title country industry)

/-- The aggregation pipeline applied to a fixed batch of raw results:
filter, deduplicate, rank. -/
def pipeline (job_title country : String) (industry : Option String)
    (raw : List RawResult) : List Job :=
  rankJobs job_title country industry (deduplicate (resultFilter raw))

/-- One `COUNTRIES` entry: its `job_sites` and `search_terms` lists. -/
structure CountryInfo where
  job_sites : List String
  search_terms : List String

/-- The `COUNTRIES` table (the `code` field is never read by the query
builder and is omitted). -/
def COUNTRIES : String → Option CountryInfo
  | "United States" => some ⟨["linkedin.com/jobs", "indeed.com", "glassdoor.com", "monster.com"],
      ["jobs", "careers", "hiring", "employment"]⟩
  | "United Kingdom" => some ⟨["linkedin.com/jobs", "indeed.co.uk", "totaljobs.com", "reed.co.uk"],
      ["jobs", "careers", "vacancies", "positions"]⟩
  | "Canada" => some ⟨["linkedin.com/jobs", "indeed.ca", "workopolis.com", "monster.ca"],
      ["jobs", "careers", "employment", "opportunities"]⟩
  | "Australia" => some ⟨["linkedin.com/jobs", "seek.com.au", "indeed.com.au", "careerone.com.au"],
      ["jobs", "careers", "positions", "vacancies"]⟩
  | "Germany" => some ⟨["linkedin.com/jobs", "xing.com", "stepstone.de", "indeed.de"],
      ["jobs", "stellen", "karriere", "arbeit"]⟩
  | "France" => some ⟨["linkedin.com/jobs", "indeed.fr", "apec.fr", "monster.fr"],
      ["emploi", "travail", "carrières", "postes"]⟩
  | "India" => some ⟨["linkedin.com/jobs", "naukri.com", "indeed.co.in", "monster.co.in"],
      ["jobs", "careers", "naukri", "employment"]⟩
  | "Singapore" => some ⟨["linkedin.com/jobs", "indeed.sg", "jobsbank.gov.sg", "monster.com.sg"],
      ["jobs", "careers", "positions", "vacancies"]⟩
  | "Netherlands" => some ⟨["linkedin.com/jobs", "indeed.nl", "nationale-vacaturebank.nl", "monster.nl"],
      ["vacatures", "banen", "werk", "carrière"]⟩
  | "Japan" => some ⟨["linkedin.com/jobs", "indeed.com", "rikunabi.com", "mynavi.jp"],
      ["jobs", "求人", "転職", "採用"]⟩
  | _ => none

/-- `create_country_job_queries`: site queries (top 5 sites × first 2
search terms), industry queries (first 3 keywords × top 3 sites), three
general queries; then `list(set(queries))[:12]`.  The iteration order of a
Python `set` is implementation-defined; the model fixes one duplicate-free
enumeration (`List.dedup`) — the properties proved below (no duplicates,
cap at 12) hold for every enumeration order.  The `time_filter` parameter
is accepted and never read, as in the code. -/
def create_country_job_queries (job_title country city : String)
    (industry : Option String) (time_filter : String) : List String :=
  let job_sites := match COUNTRIES country with
    | some ci => ci.job_sites
    | none => ["linkedin.com/jobs"]
  let search_terms := match COUNTRIES country with
    | some ci => ci.search_terms
    | none => ["jobs"]
  let location_query :=
    if city.isEmpty then "\"" ++ country ++ "\""
    else "\"" ++ city ++ "\" \"" ++ country ++ "\""
  let industry_kws :=
    if industryOk industry = true then (industry_keywords (industry.getD "")).take 3 else []
  let site_queries := (job_sites.take 5).flatMap (fun site =>
    (search_terms.take 2).map (fun term =>
      pyStrip ("\"" ++ job_title ++ "\" site:" ++ site ++ " " ++ location_query ++
        " " ++ term ++ " apply")))
  let ind_queries := industry_kws.flatMap (fun kw =>
    (job_sites.take 3).map (fun site =>
      pyStrip ("\"" ++ job_title ++ "\" " ++ kw ++ " site:" ++ site ++ " " ++
        location_query ++ " hiring")))
  let general_queries :=
    ["\"" ++ job_title ++ "\" " ++ location_query ++ " " ++ search_terms.headD "" ++
        " \"apply now\"",
     "\"" ++ job_title ++ "\" " ++ location_query ++ " careers hiring",
     "\"" ++ job_title ++ "\" " ++ location_query ++ " \"we\x27re hiring\""]
  ((site_queries ++ ind_queries ++ general_queries).dedup).take 12

/-! ### Structural lemmas about the deduplication dict -/

/-- A dict update leaves the key sequence unchanged when the key is
already present, and appends the new key otherwise. -/
theorem upsert_keys (acc : List Job) (j : Job) :
    (upsert acc j).map jobKey =
      if jobKey j ∈ acc.map jobKey then acc.map jobKey
      else acc.map jobKey ++ [jobKey j] := by
  induction acc with
  | nil => simp [upsert]
  | cons x xs ih =>
    simp only [upsert]
    by_cases h : jobKey x = jobKey j
    · rw [if_pos h]
      have hmem : jobKey j ∈ (x :: xs).map jobKey := by simp [← h]
      rw [if_pos hmem]
      have hk : jobKey (if isPreferred j.source = true ∧ isPreferred x.source = false
          then j else x) = jobKey x := by
        split
        · exact h.symm
        · rfl
      simp [hk]
    · rw [if_neg h]
      by_cases hm : jobKey j ∈ xs.map jobKey
      · have hmem : jobKey j ∈ (x :: xs).map jobKey := by simp [hm]
        rw [if_pos hmem]
        simp [ih, hm]
      · have hmem : jobKey j ∉ (x :: xs).map jobKey := by
          simp only [List.map_cons, List.mem_cons, not_or]
          exact ⟨fun hh => h hh.symm, hm⟩
        rw [if_neg hmem]
        simp [ih, hm]

/-- Keys present in the accumulator survive the whole fold. -/
theorem mem_keys_foldl_of_mem (l : List Job) :
    ∀ (acc : List Job) (k : String), k ∈ acc.map jobKey →
      k ∈ (l.foldl upsert acc).map jobKey := by
  induction l with
  | nil => intro acc k hk; simpa using hk
  | cons j t ih =>
    intro acc k hk
    rw [List.foldl_cons]
    apply ih
    rw [upsert_keys]
    split
    · exact hk
    · exact List.mem_append_left _ hk

/-- Every input job's key appears among the keys of the fold result. -/
theorem mem_keys_foldl (l : List Job) :
    ∀ (acc : List Job) (x : Job), x ∈ l →
      jobKey x ∈ (l.foldl upsert acc).map jobKey := by
  induction l with
  | nil => intro acc x hx; cases hx
  | cons j t ih =>
    intro acc x hx
    rw [List.foldl_cons]
    rcases List.mem_cons.mp hx with rfl | hx
    · apply mem_keys_foldl_of_mem
      rw [upsert_keys]
      split
      · assumption
      · exact List.mem_append_right _ (by simp)
    · exact ih _ x hx

/-- The fold keeps the key sequence duplicate-free. -/
theorem nodup_keys_foldl (l : List Job) :
    ∀ acc : List Job, (acc.map jobKey).Nodup →
      ((l.foldl upsert acc).map jobKey).Nodup := by
  induction l with
  | nil => intro acc h; simpa using h
  | cons j t ih =>
    intro acc h
    rw [List.foldl_cons]
    apply ih
    rw [upsert_keys]
    split
    · exact h
    · next hnot => simp [List.nodup_append, h, hnot]

/-- The deduplicated list has pairwise distinct keys. -/
theorem nodup_keys_deduplicate (l : List Job) :
    ((deduplicate l).map jobKey).Nodup :=
  nodup_keys_foldl l [] (by simp)

/-- Updating with a fresh key appends the job at the end. -/
theorem upsert_of_key_not_mem {acc : List Job} {j : Job}
    (h : jobKey j ∉ acc.map jobKey) : upsert acc j = acc ++ [j] := by
  induction acc with
  | nil => rfl
  | cons x xs ih =>
    simp only [List.map_cons, List.mem_cons, not_or] at h
    obtain ⟨ha, hb⟩ := h
    have hne : ¬ jobKey x = jobKey j := fun hh => ha hh.symm
    simp only [upsert, if_neg hne]
    rw [ih hb]
    simp

/-- Folding a key-duplicate-free list through the dict appends it whole. -/
theorem foldl_upsert_of_nodup (l : List Job) :
    ∀ acc : List Job, ((acc ++ l).map jobKey).Nodup →
      l.foldl upsert acc = acc ++ l := by
  induction l with
  | nil => intro acc _; simp
  | cons j t ih =>
    intro acc h
    have hnotin : jobKey j ∉ acc.map jobKey := by
      have h' := h
      simp only [List.map_append, List.map_cons, List.nodup_append] at h'
      exact fun hmem => (h'.2.2 hmem) (by simp)
    rw [List.foldl_cons, upsert_of_key_not_mem hnotin]
    have hstep := ih (acc ++ [j]) (by simpa using h)
    rw [hstep]
    simp

/-! ### Claim theorems -/

/-- The Greenhouse candidate of Scenario A. -/
def scenarioA_greenhouse : Job :=
  { title := "Senior Data Analyst", link := "https://boards.greenhouse.io/x/123",
    snippet := "data analyst role", source := "Greenhouse" }

/-- The Indeed candidate of Scenario A. -/
def scenarioA_indeed : Job :=
  { title := "Senior Data Analyst", link := "https://www.indeed.com/x/123",
    snippet := "data analyst role", source := "Indeed" }

/-- Claim C1, as stated, is false: on the Scenario A input the
Deduplicator does not return exactly one candidate — the two records hash
to different keys because `source` is part of the key, so both survive. -/
theorem scenarioA_counterexample :
    deduplicate [scenarioA_greenhouse, scenarioA_indeed] ≠ [scenarioA_greenhouse] ∧
    (deduplicate [scenarioA_greenhouse, scenarioA_indeed]).length = 2 := by decide

/-- Claim C1 (amended): on the Scenario A input the Deduplicator keeps
both candidates, unchanged and in input order, since their dedup keys
differ (the key includes the `source` field). -/
theorem scenarioA_both_kept :
    deduplicate [scenarioA_greenhouse, scenarioA_indeed] =
      [scenarioA_greenhouse, scenarioA_indeed] := by decide

/-- Claim C3, as stated, is false: a title of exactly 10 characters that
is job-related, spam-free and has an `http` link is nevertheless rejected,
because the code requires `len(title) > 10` strictly. -/
theorem filter_boundary_counterexample :
    (processResult { title := "hiring now", link := "http://x.io", snippet := "" }).isSome
        = false ∧
    ("hiring now" : String).length = 10 ∧
    pyStarts "http" "http://x.io" ∧
    is_job_related "hiring now" "http://x.io" "" = true ∧
    has_spam "hiring now" = false := by decide

/-- Claim C3 (amended): for a raw candidate whose link starts with `http`
and which passes the job-indicator and spam checks, the filter accepts it
exactly when the title length is strictly between 10 and 150 — 10 and 150
themselves are rejected, 11 and 149 accepted. -/
theorem filter_strict_bounds (r : RawResult) (h1 : pyStarts "http" r.link)
    (h2 : is_job_related r.title r.link r.snippet = true)
    (h3 : has_spam r.title = false) :
    (processResult r).isSome = true ↔ 10 < r.title.length ∧ r.title.length < 150 := by
  constructor
  · intro h
    unfold processResult at h
    split at h
    · next hc => exact ⟨hc.2.2.1, hc.2.2.2.1⟩
    · simp at h
  · intro hlen
    unfold processResult
    rw [if_pos ⟨h1, h2, hlen.1, hlen.2, h3⟩]
    rfl

/-- Witness for `filter_strict_bounds`: an 11-character job-related title
with an `http` link is accepted. -/
theorem filter_strict_bounds_witness :
    (processResult { title := "hiring now!", link := "http://x.io", snippet := "" }).isSome
      = true :=
  (filter_strict_bounds { title := "hiring now!", link := "http://x.io", snippet := "" }
    (by decide) (by decide) (by decide)).mpr (by decide)

/-- Claim C4: the Deduplicator is idempotent — run on its own output it
returns that output unchanged, in the same order. -/
theorem dedup_idempotent (l : List Job) :
    deduplicate (deduplicate l) = deduplicate l := by
  have h := nodup_keys_deduplicate l
  have hfold := foldl_upsert_of_nodup (deduplicate l) [] (by simpa using h)
  simpa [deduplicate] using hfold

/-- A first-occurrence enumeration of `q.dedup`, truncated, is
duplicate-free. -/
theorem dedupTake_nodup (q : List String) : ((q.dedup).take 12).Nodup :=
  (List.take_sublist _ _).nodup (List.nodup_dedup q)

/-- Truncation bounds the query-list length. -/
theorem dedupTake_len (q : List String) : ((q.dedup).take 12).length ≤ 12 := by
  rw [List.length_take]
  exact min_le_left _ _

/-- Claim C8: for every input, the query builder returns a duplicate-free
list of at most 12 queries (`list(set(queries))[:12]`). -/
theorem queries_nodup_and_capped (job_title country city : String)
    (industry : Option String) (time_filter : String) :
    (create_country_job_queries job_title country city industry time_filter).Nodup ∧
    (create_country_job_queries job_title country city industry time_filter).length ≤ 12 :=
  ⟨dedupTake_nodup _, dedupTake_len _⟩

/-- Claim C9: a fetch whose transport fails (network error, timeout,
non-2xx status) or whose response is unparseable contributes the empty
list; the exception handlers convert every such failure into `[]`. -/
theorem scraper_error_empty (e : String) :
    enhanced_google_scraper (Except.error e) = [] := rfl

/-- `pyLower` acts character-wise on the data. -/
theorem pyLower_data (s : String) : (pyLower s).data = s.data.map Char.toLower := rfl

/-- Two jobs that agree on title and link but differ in source have
different dedup keys: the key ends with the verbatim source, and in the
source-derived branch of `company_identifier` the concatenated lengths
force the sources to coincide. -/
theorem jobKey_ne_of_source_ne {x y : Job} (ht : x.title = y.title)
    (hl : x.link = y.link) (hs : x.source ≠ y.source) : jobKey x ≠ jobKey y := by
  intro hk
  have hmid : (companyIdentifier x).data ++ x.source.data
      = (companyIdentifier y).data ++ y.source.data := by
    have h0 := congrArg String.data hk
    simp only [jobKey, String.data_append, List.append_assoc, ht] at h0
    exact List.append_cancel_left h0
  by_cases hat : pyIn " at " (pyStrip (pyLower y.title))
  · have hcx : companyIdentifier x
        = ((pyStrip (pyLower y.title)).splitOn " at ").getLastD "" := by
      unfold companyIdentifier
      rw [ht, if_pos hat]
    have hcy : companyIdentifier y
        = ((pyStrip (pyLower y.title)).splitOn " at ").getLastD "" := by
      unfold companyIdentifier
      rw [if_pos hat]
    rw [hcx, hcy] at hmid
    exact hs (String.ext (List.append_cancel_left hmid))
  · by_cases hcar : pyIn "careers." (pyLower y.link)
    · have hcx : companyIdentifier x
          = ((((pyLower y.link).splitOn "careers.").getD 1 "").splitOn ".").headD "" := by
        unfold companyIdentifier
        rw [ht, hl, if_neg hat, if_pos hcar]
      have hcy : companyIdentifier y
          = ((((pyLower y.link).splitOn "careers.").getD 1 "").splitOn ".").headD "" := by
        unfold companyIdentifier
        rw [if_neg hat, if_pos hcar]
      rw [hcx, hcy] at hmid
      exact hs (String.ext (List.append_cancel_left hmid))
    · have hcx : companyIdentifier x
          = (if x.source ≠ "Unknown" then pyLower x.source else "") := by
        unfold companyIdentifier
        rw [ht, hl, if_neg hat, if_neg hcar]
      have hcy : companyIdentifier y
          = (if y.source ≠ "Unknown" then pyLower y.source else "") := by
        unfold companyIdentifier
        rw [if_neg hat, if_neg hcar]
      rw [hcx, hcy] at hmid
      have hU : ("Unknown" : String).data.length = 7 := by decide
      by_cases hxu : x.source = "Unknown"
      · by_cases hyu : y.source = "Unknown"
        · exact hs (hxu.trans hyu.symm)
        · rw [if_neg (by simp [hxu]), if_pos hyu, hxu] at hmid
          have hlen := congrArg List.length hmid
          simp only [List.length_append, pyLower_data, List.length_map,
            List.length_nil] at hlen
          have : ("" : String).data = [] := rfl
          rw [this] at hmid
          have hlen' := congrArg List.length hmid
          simp only [List.length_append, pyLower_data, List.length_map,
            List.length_nil, hU] at hlen'
          omega
      · by_cases hyu : y.source = "Unknown"
        · rw [if_pos hxu, if_neg (by simp [hyu]), hyu] at hmid
          have : ("" : String).data = [] := rfl
          rw [this] at hmid
          have hlen := congrArg List.length hmid
          simp only [List.length_append, pyLower_data, List.length_map,
            List.length_nil, hU] at hlen
          omega
        · rw [if_pos hxu, if_pos hyu] at hmid
          have hlen := congrArg List.length hmid
          simp only [List.length_append, pyLower_data, List.length_map] at hlen
          have hinj := List.append_inj hmid
            (by simp only [pyLower_data, List.length_map]; omega)
          exact hs (String.ext hinj.2)

/-- Claim C10: `source` is part of the dedup key, so two candidates
identical except for their source are never merged — their keys differ and
each key survives into the Deduplicator's output. -/
theorem source_in_key_no_merge (l : List Job) (x y : Job) (hx : x ∈ l) (hy : y ∈ l)
    (ht : x.title = y.title) (hl : x.link = y.link) (hsn : x.snippet = y.snippet)
    (hs : x.source ≠ y.source) :
    jobKey x ≠ jobKey y ∧
    (∃ a ∈ deduplicate l, jobKey a = jobKey x) ∧
    (∃ b ∈ deduplicate l, jobKey b = jobKey y) := by
  refine ⟨jobKey_ne_of_source_ne ht hl hs, ?_, ?_⟩
  · exact List.mem_map.mp (mem_keys_foldl l [] x hx)
  · exact List.mem_map.mp (mem_keys_foldl l [] y hy)

/-- The closed set of source labels the filter can assign (`assignSource`
returns a `domain_indicators` value or "Unknown"). -/
def source_values : List String :=
  ["LinkedIn", "Indeed", "Glassdoor", "Monster", "Greenhouse", "Lever",
   "Workday", "BambooHR", "Company Career Page", "Unknown"]

/-- The filter only ever assigns sources from `source_values`. -/
theorem assignSource_mem (link : String) : assignSource link ∈ source_values := by
  unfold assignSource
  split
  · next p hp =>
    have hmem := List.mem_of_find?_eq_some hp
    fin_cases hmem <;> simp [source_values]
  · simp [source_values]

/-- No source label is a proper suffix of another: a suffix relation
between members of `source_values` forces equality. -/
theorem suffix_eq_on_sources :
    ∀ s₁ ∈ source_values, ∀ s₂ ∈ source_values,
      s₁.data <:+ s₂.data → s₁ = s₂ := by decide

/-- The dedup key ends with the verbatim source, so two same-key jobs with
sources from the filter's enumeration have the same source. -/
theorem source_eq_of_jobKey_eq {x y : Job} (hx : x.source ∈ source_values)
    (hy : y.source ∈ source_values) (hk : jobKey x = jobKey y) :
    x.source = y.source := by
  have hs1 : x.source.data <:+ (jobKey x).data := by
    simp only [jobKey, String.data_append, List.append_assoc]
    exact (List.suffix_append _ _).trans (List.suffix_append _ _)
  have hs2 : y.source.data <:+ (jobKey y).data := by
    simp only [jobKey, String.data_append, List.append_assoc]
    exact (List.suffix_append _ _).trans (List.suffix_append _ _)
  rw [hk] at hs1
  rcases List.suffix_or_suffix_of_suffix hs1 hs2 with h | h
  · exact suffix_eq_on_sources _ hx _ hy h
  · exact (suffix_eq_on_sources _ hy _ hx h).symm

/-- When every stored job with the new job's key shares its source, the
replacement condition of the merge rule is false and the dict update
reduces to keep-or-append. -/
theorem upsert_of_same_source {acc : List Job} {j : Job}
    (h : ∀ a ∈ acc, jobKey a = jobKey j → a.source = j.source) :
    upsert acc j = if jobKey j ∈ acc.map jobKey then acc else acc ++ [j] := by
  induction acc with
  | nil => simp [upsert]
  | cons x xs ih =>
    by_cases hk : jobKey x = jobKey j
    · have hsrc : x.source = j.source := h x (by simp) hk
      have hrep : ¬ (isPreferred j.source = true ∧ isPreferred x.source = false) := by
        rw [hsrc]
        rintro ⟨h1, h2⟩
        rw [h1] at h2
        cases h2
      have hmem : jobKey j ∈ (x :: xs).map jobKey := by simp [← hk]
      simp only [upsert, if_pos hk, if_neg hrep]
      rw [if_pos hmem]
    · simp only [upsert, if_neg hk]
      have htail := ih (fun a ha hka => h a (by simp [ha]) hka)
      rw [htail]
      by_cases hm : jobKey j ∈ xs.map jobKey
      · rw [if_pos hm, if_pos (by simp [hm])]
      · have hnot : jobKey j ∉ (x :: xs).map jobKey := by
          simp only [List.map_cons, List.mem_cons, not_or]
          exact ⟨fun hh => hk hh.symm, hm⟩
        rw [if_neg hm, if_neg hnot]
        simp

/-- The keep-or-append dict step: first occurrence of a key wins. -/
def keepFirstStep (acc : List Job) (j : Job) : List Job :=
  if jobKey j ∈ acc.map jobKey then acc else acc ++ [j]

/-- When same-key jobs across the accumulator and the input share sources,
the dict fold never replaces and agrees with the keep-first fold. -/
theorem foldl_upsert_eq_keepFirst (l : List Job) :
    ∀ acc : List Job,
      (∀ a ∈ acc, ∀ b ∈ l, jobKey a = jobKey b → a.source = b.source) →
      (∀ a ∈ l, ∀ b ∈ l, jobKey a = jobKey b → a.source = b.source) →
      l.foldl upsert acc = l.foldl keepFirstStep acc := by
  induction l with
  | nil => intro acc _ _; rfl
  | cons j t ih =>
    intro acc hmix hself
    rw [List.foldl_cons, List.foldl_cons]
    have hstep : upsert acc j = keepFirstStep acc j :=
      upsert_of_same_source (fun a ha hk => hmix a ha j (by simp) hk)
    rw [hstep]
    apply ih
    · intro a ha b hb hk
      have hmem : a ∈ acc ∨ a = j := by
        unfold keepFirstStep at ha
        split at ha
        · exact Or.inl ha
        · rcases List.mem_append.mp ha with h | h
          · exact Or.inl h
          · exact Or.inr (by simpa using h)
      rcases hmem with h | rfl
      · exact hmix a h b (by simp [hb]) hk
      · exact hself a (by simp) b (by simp [hb]) hk
    · intro a ha b hb hk
      exact hself a (by simp [ha]) b (by simp [hb]) hk

/-- Accumulator members survive the keep-first fold. -/
theorem mem_foldl_keepFirst_mono (l : List Job) :
    ∀ (acc : List Job) (a : Job), a ∈ acc → a ∈ l.foldl keepFirstStep acc := by
  induction l with
  | nil => intro acc a ha; simpa using ha
  | cons j t ih =>
    intro acc a ha
    rw [List.foldl_cons]
    apply ih
    unfold keepFirstStep
    split
    · exact ha
    · exact List.mem_append_left _ ha

/-- The first input job bearing a key not yet in the accumulator ends up
in the keep-first fold's output. -/
theorem find?_mem_foldl_keepFirst (l : List Job) :
    ∀ (acc : List Job) (K : String) (k : Job),
      l.find? (fun j => jobKey j == K) = some k → K ∉ acc.map jobKey →
      k ∈ l.foldl keepFirstStep acc := by
  induction l with
  | nil => intro acc K k h _; simp at h
  | cons j t ih =>
    intro acc K k h hnot
    rw [List.foldl_cons]
    by_cases hj : jobKey j = K
    · rw [List.find?_cons_of_pos _ (by simp [hj])] at h
      obtain rfl : j = k := Option.some.inj h
      apply mem_foldl_keepFirst_mono
      unfold keepFirstStep
      have hfresh : jobKey j ∉ acc.map jobKey := by
        rw [hj]; exact hnot
      rw [if_neg hfresh]
      exact List.mem_append_right _ (by simp)
    · rw [List.find?_cons_of_neg _ (by simp [hj])] at h
      apply ih _ K k h
      unfold keepFirstStep
      split
      · exact hnot
      · simp only [List.map_append, List.mem_append]
        rintro (h1 | h2)
        · exact hnot h1
        · have : K = jobKey j := by simpa using h2
          exact hj this.symm

/-- Modelled from the spec: the fixed source-quality ranking of the merge
rule ("Greenhouse/Workday > Lever > LinkedIn > Company Career Page >
Indeed > Glassdoor > Monster > others") as a numeric priority, used to
state claim C2. -/
def srcPriority : String → Nat
  | "Greenhouse" => 7
  | "Workday" => 7
  | "Lever" => 6
  | "LinkedIn" => 5
  | "Company Career Page" => 4
  | "Indeed" => 3
  | "Glassdoor" => 2
  | "Monster" => 1
  | _ => 0

/-- Claim C2: among candidates merged as duplicates (equal dedup key), the
kept candidate's source priority is at least every discarded candidate's,
and on ties the first-seen candidate is kept.  Because the key embeds the
source, same-key candidates drawn from the filter's source enumeration
share one source, so priorities tie throughout the class and the dict
keeps the first arrival. -/
theorem merge_keeps_best_source (l : List Job)
    (hsrc : ∀ j ∈ l, j.source ∈ source_values)
    (x y : Job) (hx : x ∈ l) (hy : y ∈ l) (hkey : jobKey x = jobKey y) :
    ∃ k, k ∈ deduplicate l ∧ jobKey k = jobKey x ∧
      srcPriority x.source ≤ srcPriority k.source ∧
      srcPriority y.source ≤ srcPriority k.source ∧
      l.find? (fun j => jobKey j == jobKey x) = some k := by
  have hsame : ∀ a ∈ l, ∀ b ∈ l, jobKey a = jobKey b → a.source = b.source :=
    fun a ha b hb hk => source_eq_of_jobKey_eq (hsrc a ha) (hsrc b hb) hk
  have hded : deduplicate l = l.foldl keepFirstStep [] := by
    unfold deduplicate
    exact foldl_upsert_eq_keepFirst l []
      (fun a ha => absurd ha (List.not_mem_nil a)) hsame
  have hfind : (l.find? (fun j => jobKey j == jobKey x)).isSome := by
    rw [List.find?_isSome]
    exact ⟨x, hx, by simp⟩
  obtain ⟨k, hk⟩ := Option.isSome_iff_exists.mp hfind
  have hkx : jobKey k = jobKey x := by simpa using List.find?_some hk
  have hkl : k ∈ l := List.mem_of_find?_eq_some hk
  refine ⟨k, ?_, hkx, ?_, ?_, hk⟩
  · rw [hded]
    exact find?_mem_foldl_keepFirst l [] (jobKey x) k hk (by simp)
  · exact le_of_eq (by rw [hsame x hx k hkl hkx.symm])
  · exact le_of_eq (by rw [hsame y hy k hkl (hkey.symm.trans hkx.symm)])

/-- First record of the C2 witness class. -/
def dupA : Job :=
  { title := "Data Engineer Hiring", link := "https://boards.greenhouse.io/a",
    snippet := "s1", source := "Greenhouse" }

/-- Second record of the C2 witness class, same key as `dupA`. -/
def dupB : Job :=
  { title := "Data Engineer Hiring", link := "https://boards.greenhouse.io/b",
    snippet := "s2", source := "Greenhouse" }

/-- Witness for `merge_keeps_best_source`: two Greenhouse records with the
same key merge into the first-seen one. -/
theorem merge_keeps_best_source_witness :
    ∃ k, k ∈ deduplicate [dupA, dupB] ∧ jobKey k = jobKey dupA ∧
      srcPriority dupA.source ≤ srcPriority k.source ∧
      srcPriority dupB.source ≤ srcPriority k.source ∧
      [dupA, dupB].find? (fun j => jobKey j == jobKey dupA) = some k :=
  merge_keeps_best_source [dupA, dupB] (by decide) dupA dupB (by decide)
    (by decide) (by decide)

/-- The LinkedIn record of the `source_in_key_no_merge` witness pair. -/
def pairX : Job :=
  { title := "Data Engineer Hiring", link := "https://example.com/jobs/1",
    snippet := "s", source := "LinkedIn" }

/-- The Indeed record of the `source_in_key_no_merge` witness pair. -/
def pairY : Job :=
  { title := "Data Engineer Hiring", link := "https://example.com/jobs/1",
    snippet := "s", source := "Indeed" }

/-- Witness for `source_in_key_no_merge`: two records identical except for
their source stay distinct through deduplication. -/
theorem source_in_key_no_merge_witness :
    jobKey pairX ≠ jobKey pairY ∧
    (∃ a ∈ deduplicate [pairX, pairY], jobKey a = jobKey pairX) ∧
    (∃ b ∈ deduplicate [pairX, pairY], jobKey b = jobKey pairY) :=
  source_in_key_no_merge [pairX, pairY] pairX pairY (by decide) (by decide)
    (by decide) (by decide) (by decide) (by decide)

/-- Substring containment is transitive. -/
theorem pyIn_trans {a b c : String} (h1 : pyIn a b) (h2 : pyIn b c) : pyIn a c := by
  obtain ⟨u, v, huv⟩ := h1
  obtain ⟨s, t, hst⟩ := h2
  exact ⟨s ++ u, v ++ t, by rw [← hst, ← huv]; simp⟩

/-- Claim C6: with role title "Data Analyst", a candidate titled exactly
"Data Analyst" scores at least as much as one titled "Analyst" with the
same snippet, link and source — every substring test satisfied by
"analyst" is satisfied by "data analyst", and the latter additionally
earns the exact-match and "data"-word bonuses. -/
theorem ranking_monotonic (country : String) (industry : Option String)
    (link snippet source : String) :
    calculate_relevance_score "Data Analyst" country industry
      { title := "Analyst", link := link, snippet := snippet, source := source } ≤
    calculate_relevance_score "Data Analyst" country industry
      { title := "Data Analyst", link := link, snippet := snippet, source := source } := by
  have hmono : ∀ w : String, pyIn w (pyLower "Analyst") → pyIn w (pyLower "Data Analyst") :=
    fun w h => pyIn_trans h (by decide)
  have hexact : exactBonus (pyLower "Data Analyst") (pyLower "Analyst")
      ≤ exactBonus (pyLower "Data Analyst") (pyLower "Data Analyst") := by decide
  have hL : wordBonus (pyLower "Data Analyst") (pyLower "Analyst") (pyLower snippet)
      = (if pyIn "data" (pyLower snippet) then 3 else 0) + 8 := by
    unfold wordBonus
    rw [show pySplitWs (pyLower "Data Analyst") = ["data", "analyst"] from by decide]
    simp only [List.map_cons, List.map_nil, List.sum_cons, List.sum_nil]
    rw [if_pos (by decide : 2 < String.length "data"),
        if_neg (by decide : ¬ pyIn "data" (pyLower "Analyst")),
        if_pos (by decide : 2 < String.length "analyst"),
        if_pos (by decide : pyIn "analyst" (pyLower "Analyst"))]
    ring
  have hR : wordBonus (pyLower "Data Analyst") (pyLower "Data Analyst") (pyLower snippet)
      = 16 := by
    unfold wordBonus
    rw [show pySplitWs (pyLower "Data Analyst") = ["data", "analyst"] from by decide]
    simp only [List.map_cons, List.map_nil, List.sum_cons, List.sum_nil]
    rw [if_pos (by decide : 2 < String.length "data"),
        if_pos (by decide : pyIn "data" (pyLower "Data Analyst")),
        if_pos (by decide : 2 < String.length "analyst"),
        if_pos (by decide : pyIn "analyst" (pyLower "Data Analyst"))]
    ring
  have hword : wordBonus (pyLower "Data Analyst") (pyLower "Analyst") (pyLower snippet)
      ≤ wordBonus (pyLower "Data Analyst") (pyLower "Data Analyst") (pyLower snippet) := by
    rw [hL, hR]
    split <;> omega
  have hcountry : countryBonus (pyLower country) (pyLower "Analyst") (pyLower snippet)
      ≤ countryBonus (pyLower country) (pyLower "Data Analyst") (pyLower snippet) := by
    unfold countryBonus
    by_cases h : pyIn (pyLower country) (pyLower "Analyst") ∨
        pyIn (pyLower country) (pyLower snippet)
    · have h' : pyIn (pyLower country) (pyLower "Data Analyst") ∨
          pyIn (pyLower country) (pyLower snippet) := by
        rcases h with h | h
        · exact Or.inl (hmono _ h)
        · exact Or.inr h
      rw [if_pos h, if_pos h']
    · rw [if_neg h]
      split <;> omega
  have hind : industryBonus industry (pyLower "Analyst") (pyLower snippet)
      ≤ industryBonus industry (pyLower "Data Analyst") (pyLower snippet) := by
    unfold industryBonus
    split
    · apply List.sum_le_sum
      intro kw _
      by_cases h : pyIn kw (pyLower "Analyst") ∨ pyIn kw (pyLower snippet)
      · have h' : pyIn kw (pyLower "Data Analyst") ∨ pyIn kw (pyLower snippet) := by
          rcases h with h | h
          · exact Or.inl (hmono _ h)
          · exact Or.inr h
        rw [if_pos h, if_pos h']
      · rw [if_neg h]
        split <;> omega
    · exact le_refl _
  have hpen : lengthPenalty "Analyst" ≤ lengthPenalty "Data Analyst" := by decide
  unfold calculate_relevance_score
  exact max_le_max (le_refl 0)
    (add_le_add (add_le_add (add_le_add (add_le_add (add_le_add hexact hword)
      hcountry) hind) (le_refl _)) hpen)

/-- Claim C5: the ranker returns a permutation of its input, sorted
descending by relevance score, and the sort is stable — two score-tied
candidates appear in the output in the order the Deduplicator gave them. -/
theorem ranker_sorts (job_title country : String) (industry : Option String)
    (l : List Job) :
    (rankJobs job_title country industry l).Perm l ∧
    (rankJobs job_title country industry l).Pairwise (fun a b =>
      calculate_relevance_score job_title country industry b ≤
      calculate_relevance_score job_title country industry a) ∧
    ∀ a b : Job, calculate_relevance_score job_title country industry a =
        calculate_relevance_score job_title country industry b →
      [a, b].Sublist l → [a, b].Sublist (rankJobs job_title country industry l) := by
  have htrans : ∀ x y z : Job, scoreGE job_title country industry x y = true →
      scoreGE job_title country industry y z = true →
      scoreGE job_title country industry x z = true := by
    intro x y z h1 h2
    simp only [scoreGE, decide_eq_true_eq] at h1 h2 ⊢
    exact le_trans h2 h1
  have htotal : ∀ x y : Job, (scoreGE job_title country industry x y ||
      scoreGE job_title country industry y x) = true := by
    intro x y
    simp only [scoreGE, Bool.or_eq_true, decide_eq_true_eq]
    exact le_total _ _
  refine ⟨List.mergeSort_perm l _, ?_, ?_⟩
  · have hsorted := List.sorted_mergeSort htrans htotal l
    exact hsorted.imp (fun h => by simpa [scoreGE, decide_eq_true_eq] using h)
  · intro a b heq hsub
    exact List.mergeSort_stable_pair htrans htotal (by simp [scoreGE, heq]) hsub

/-- First record of the C5 tie-witness pair (both score 0). -/
def tieA : Job := { title := "aa", link := "", snippet := "", source := "" }

/-- Second record of the C5 tie-witness pair (both score 0). -/
def tieB : Job := { title := "bb", link := "", snippet := "", source := "" }

/-- Witness for `ranker_sorts`: two score-tied records keep their relative
order through the ranking stage. -/
theorem ranker_sorts_witness :
    [tieA, tieB].Sublist (rankJobs "zz" "qq" none [tieA, tieB]) :=
  (ranker_sorts "zz" "qq" none [tieA, tieB]).2.2 tieA tieB (by decide)
    (List.Sublist.refl _)

/-- Claim C7: the ResultFilter → Deduplicator → RelevanceRanker pipeline
is a pure function of the raw-candidate batch and the query parameters:
two runs on the same input give the same output. -/
theorem pipeline_deterministic (job_title country : String) (industry : Option String)
    (raw₁ raw₂ : List RawResult) (h : raw₁ = raw₂) :
    pipeline job_title country industry raw₁ = pipeline job_title country industry raw₂ := by
  rw [h]

/-- Witness for `pipeline_deterministic` on a concrete one-result batch. -/
theorem pipeline_deterministic_witness :
    pipeline "Data Analyst" "India" none
      [{ title := "Data Analyst role now hiring", link := "https://www.linkedin.com/jobs/1",
         snippet := "role" }] =
    pipeline "Data Analyst" "India" none
      [{ title := "Data Analyst role now hiring", link := "https://www.linkedin.com/jobs/1",
         snippet := "role" }] :=
  pipeline_deterministic "Data Analyst" "India" none _ _ rfl

end JobSearch
